import Mathlib

/-!
Verification of the go-pacifica client library core: the JSON canonicalizer
and signing pipeline of `exchange.go`, and the websocket subscription
registry, close and reconnect logic of the websocket client.

The Go code is shallowly embedded: JSON-representable values become the
`Json` inductive below, Go maps become association lists (with the no
duplicate key invariant of a Go map carried as an explicit hypothesis where
a theorem needs it), `int64` becomes `Int`, byte slices become `List Nat`,
and fallible or panicking Go code returns `Except`.
-/

namespace Pacifica

/-- Model of a JSON-representable Go value (`interface\x7b\x7d` holding
`map[string]interface\x7b\x7d`, `[]interface\x7b\x7d`, strings, numbers,
booleans or null).  A Go map is represented by its association list; Go map
iteration order is immaterial here because every operation modelled below
sorts the keys.  Numbers are modelled as integers, which covers every
numeric value the repository ever canonicalizes (timestamps and expiry
windows); the claims under study do not depend on float formatting. -/
inductive Json where
  | null : Json
  | bool (b : Bool) : Json
  | num (n : Int) : Json
  | str (s : String) : Json
  | arr (xs : List Json) : Json
  | obj (fs : List (String × Json)) : Json

/-- Key order on association-list entries: compare the key strings with the
lexicographic order on characters.  For UTF-8 encoded strings this agrees
with the bytewise order used by Go `sort.Strings`, because UTF-8 preserves
code-point order. -/
def keyLE {α : Type} (a b : String × α) : Prop := a.1 ≤ b.1

/-- Strict version of `keyLE`. -/
def keyLT {α : Type} (a b : String × α) : Prop := a.1 < b.1

instance {α : Type} : DecidableRel (keyLE (α := α)) :=
  fun a b => inferInstanceAs (Decidable (a.1 ≤ b.1))

instance {α : Type} : DecidableRel (keyLT (α := α)) :=
  fun a b => inferInstanceAs (Decidable (a.1 < b.1))

instance {α : Type} : IsTotal (String × α) keyLE :=
  ⟨fun a b => le_total a.1 b.1⟩

instance {α : Type} : IsTrans (String × α) keyLE :=
  ⟨fun _ _ _ hab hbc => le_trans hab hbc⟩

instance {α : Type} : IsAntisymm (String × α) keyLT :=
  ⟨fun a _b hab hba => absurd (lt_trans hab hba) (lt_irrefl a.1)⟩

/-- Sort an association list by key, ascending.  This models the
`sort.Strings(keys)` pass of `sortJSONKeys` and the key sorting Go
`json.Marshal` applies to every map: on the key-duplicate-free lists a Go
map produces, sorting the pairs by key is the same as sorting the key slice
and reading the map back in that order. -/
def sortPairs {α : Type} (l : List (String × α)) : List (String × α) :=
  List.insertionSort keyLE l

mutual

/-- Model of `sortJSONKeys` (`exchange.go`): recursively sort every
object's entries by key, recurse into arrays elementwise, return scalars
unchanged. -/
def sortJSONKeys : Json → Json
  | .null => .null
  | .bool b => .bool b
  | .num n => .num n
  | .str s => .str s
  | .arr xs => .arr (sortL xs)
  | .obj fs => .obj (sortPairs (sortF fs))

/-- Elementwise `sortJSONKeys` over an array body. -/
def sortL : List Json → List Json
  | [] => []
  | x :: xs => sortJSONKeys x :: sortL xs

/-- Valuewise `sortJSONKeys` over object entries. -/
def sortF : List (String × Json) → List (String × Json)
  | [] => []
  | (k, v) :: tl => (k, sortJSONKeys v) :: sortF tl

end

/-- Character for a decimal digit. -/
def digitChar (n : Nat) : Char :=
  match n % 10 with
  | 0 => '0'
  | 1 => '1'
  | 2 => '2'
  | 3 => '3'
  | 4 => '4'
  | 5 => '5'
  | 6 => '6'
  | 7 => '7'
  | 8 => '8'
  | _ => '9'

/-- Decimal digits of a natural number, most significant first, with a fuel
argument in the style of core `Nat.toDigits`; `fuel = n + 1` always
suffices since `n < 10 ^ (n + 1)`. -/
def natDigits : Nat → Nat → List Char
  | 0, _ => []
  | fuel + 1, n => if n < 10 then [digitChar n] else natDigits fuel (n / 10) ++ [digitChar (n % 10)]

/-- Decimal rendering of a natural number. -/
def natStr (n : Nat) : String := ⟨natDigits (n + 1) n⟩

/-- Decimal rendering of an `Int`, as Go `encoding/json` renders an
`int64`. -/
def intStr (n : Int) : String := if n < 0 then "-" ++ natStr n.natAbs else natStr n.toNat

/-- Hex digit character used in `\u00XX` escapes (lowercase, as in Go
`encoding/json`). -/
def hexDigit (n : Nat) : Char :=
  match n % 16 with
  | 0 => '0'
  | 1 => '1'
  | 2 => '2'
  | 3 => '3'
  | 4 => '4'
  | 5 => '5'
  | 6 => '6'
  | 7 => '7'
  | 8 => '8'
  | 9 => '9'
  | 10 => 'a'
  | 11 => 'b'
  | 12 => 'c'
  | 13 => 'd'
  | 14 => 'e'
  | _ => 'f'

/-- Escape of one character inside a JSON string literal, following Go
`encoding/json` with its default HTML escaping: quote, backslash, newline,
carriage return and tab get two-character escapes, other control characters
and the HTML characters get `\u00XX` escapes, U+2028 and U+2029 get
`\u202x` escapes, and everything else passes through unchanged. -/
def escChar (c : Char) : List Char :=
  if c = '"' then ['\\', '"']
  else if c = '\\' then ['\\', '\\']
  else if c = '\n' then ['\\', 'n']
  else if c = '\r' then ['\\', 'r']
  else if c = '\t' then ['\\', 't']
  else if c.toNat < 32 then ['\\', 'u', '0', '0', hexDigit (c.toNat / 16), hexDigit (c.toNat % 16)]
  else if c = '<' then ['\\', 'u', '0', '0', '3', 'c']
  else if c = '>' then ['\\', 'u', '0', '0', '3', 'e']
  else if c = '&' then ['\\', 'u', '0', '0', '2', '6']
  else if c.toNat = 8232 then ['\\', 'u', '2', '0', '2', '8']
  else if c.toNat = 8233 then ['\\', 'u', '2', '0', '2', '9']
  else [c]

/-- JSON string literal for `s`: quote, escaped characters, quote. -/
def quoteStr (s : String) : String := "\"" ++ ⟨s.data.flatMap escChar⟩ ++ "\""

/-- Comma-join of rendered pieces, with no inserted whitespace. -/
def commaJoin : List String → String
  | [] => ""
  | x :: xs => xs.foldl (fun a b => a ++ "," ++ b) x

mutual

/-- Model of Go `json.Marshal` on the values above: compact output with no
whitespace between tokens, and map keys sorted ascending (Go `json.Marshal`
documents that map keys are sorted). -/
def marshal : Json → String
  | .null => "null"
  | .bool true => "true"
  | .bool false => "false"
  | .num n => intStr n
  | .str s => quoteStr s
  | .arr xs => "[" ++ commaJoin (marshalL xs) ++ "]"
  | .obj fs => "\x7b" ++ commaJoin (marshalF (sortPairs fs)) ++ "\x7d"
termination_by j => sizeOf j
decreasing_by
  all_goals simp_wf
  all_goals first
    | omega
    | (have hp : (sortPairs fs).Perm fs := List.perm_insertionSort keyLE fs
       have hs := hp.sizeOf_eq_sizeOf
       omega)

/-- Rendering of the elements of an array body. -/
def marshalL : List Json → List String
  | [] => []
  | x :: xs => marshal x :: marshalL xs
termination_by xs => sizeOf xs
decreasing_by
  all_goals simp_wf
  all_goals omega

/-- Rendering of object entries as `"key":value` pieces. -/
def marshalF : List (String × Json) → List String
  | [] => []
  | (k, v) :: tl => (quoteStr k ++ ":" ++ marshal v) :: marshalF tl
termination_by fs => sizeOf fs
decreasing_by
  all_goals simp_wf
  all_goals omega

end

/-- Model of `createCompactJSON` (`exchange.go`): sort all keys recursively
with `sortJSONKeys`, then marshal to compact JSON.  The Go function can
only fail for values `json.Marshal` rejects (channels, functions, ...);
on JSON-representable values, the domain of this model, it is total. -/
def createCompactJSON (data : Json) : String := marshal (sortJSONKeys data)

/-- Boolean test that a list of keys has no duplicates. -/
def nodupKeysB : List String → Bool
  | [] => true
  | k :: ks => (!ks.contains k) && nodupKeysB ks

mutual

/-- Well-formedness of a `Json` value as the image of a Go value: every
object has duplicate-free keys at every depth (a Go map cannot hold a key
twice). -/
def wfJ : Json → Bool
  | .null => true
  | .bool _ => true
  | .num _ => true
  | .str _ => true
  | .arr xs => wfL xs
  | .obj fs => nodupKeysB (fs.map Prod.fst) && wfF fs

/-- Well-formedness of every element of an array body. -/
def wfL : List Json → Bool
  | [] => true
  | x :: xs => wfJ x && wfL xs

/-- Well-formedness of every value of an object body. -/
def wfF : List (String × Json) → Bool
  | [] => true
  | (_, v) :: tl => wfJ v && wfF tl

end

/-- Boolean test that a list of strings is strictly ascending. -/
def strictAscB : List String → Bool
  | [] => true
  | [_] => true
  | a :: b :: tl => decide (a < b) && strictAscB (b :: tl)

mutual

/-- Every object in the value lists its keys in strictly ascending
lexicographic order, at every nesting depth. -/
def sortedKeysB : Json → Bool
  | .null => true
  | .bool _ => true
  | .num _ => true
  | .str _ => true
  | .arr xs => sortedKeysL xs
  | .obj fs => strictAscB (fs.map Prod.fst) && sortedKeysF fs

/-- Key-sortedness of every element of an array body. -/
def sortedKeysL : List Json → Bool
  | [] => true
  | x :: xs => sortedKeysB x && sortedKeysL xs

/-- Key-sortedness of every value of an object body. -/
def sortedKeysF : List (String × Json) → Bool
  | [] => true
  | (_, v) :: tl => sortedKeysB v && sortedKeysF tl

end

/-- Pointwise lifting of a relation to array bodies. -/
inductive ListRel (r : Json → Json → Prop) : List Json → List Json → Prop where
  | nil : ListRel r [] []
  | cons : ∀ x y xs ys, r x y → ListRel r xs ys → ListRel r (x :: xs) (y :: ys)

/-- Lifting of a relation to object bodies up to reordering of entries:
the left head entry may appear at any position on the right, with the same
key and a related value, and the remainders are related recursively.  This
presents exactly the permutations of an entry list with values compared by
`r`. -/
inductive FieldsRel (r : Json → Json → Prop) :
    List (String × Json) → List (String × Json) → Prop where
  | nil : FieldsRel r [] []
  | cons : ∀ k v w fs l1 l2, r v w → FieldsRel r fs (l1 ++ l2) →
      FieldsRel r ((k, v) :: fs) (l1 ++ (k, w) :: l2)

/-- Structural equality of two JSON values up to the ordering of object
keys, at every nesting depth: scalars must be equal, arrays must match
elementwise in order, and objects must have the same entries (same key,
recursively related value) possibly listed in a different order. -/
inductive EqJ : Json → Json → Prop where
  | null : EqJ .null .null
  | bool : ∀ b, EqJ (.bool b) (.bool b)
  | num : ∀ n, EqJ (.num n) (.num n)
  | str : ∀ s, EqJ (.str s) (.str s)
  | arr : ∀ xs ys, ListRel EqJ xs ys → EqJ (.arr xs) (.arr ys)
  | obj : ∀ fs gs, FieldsRel EqJ fs gs → EqJ (.obj fs) (.obj gs)

mutual

/-- Condition under which the compact rendering can contain no whitespace
at all: no string scalar and no object key contains a space character.
Tabs and newlines inside strings are always escaped by `escChar`, so only
a literal space could ever survive into the output. -/
def noSpaceJ : Json → Bool
  | .null => true
  | .bool _ => true
  | .num _ => true
  | .str s => s.data.all (fun c => !(c == ' '))
  | .arr xs => noSpaceL xs
  | .obj fs => (fs.map Prod.fst).all (fun k => k.data.all (fun c => !(c == ' '))) && noSpaceF fs

/-- Space-freedom of every element of an array body. -/
def noSpaceL : List Json → Bool
  | [] => true
  | x :: xs => noSpaceJ x && noSpaceL xs

/-- Space-freedom of every value of an object body. -/
def noSpaceF : List (String × Json) → Bool
  | [] => true
  | (_, v) :: tl => noSpaceJ v && noSpaceF tl

end

/-- Whitespace-freedom of a rendered string: it contains no space, no tab
and no newline character. -/
def wsFree (s : String) : Prop := ∀ c ∈ s.data, c ≠ ' ' ∧ c ≠ '\t' ∧ c ≠ '\n'

/-- Byte sequence of a string, as Go `[]byte(message)` produces one;
code points stand in for the UTF-8 bytes, which preserves equality of
messages, the only property the signing layer uses. -/
def strBytes (s : String) : List Nat := s.data.map Char.toNat

/-- Interface of the external cryptography used by `exchange.go`: ed25519
(Go `crypto/ed25519`) and base58 text encoding (`mr-tron/base58`).  The Go
ed25519 private key is 64 bytes, seed plus embedded public key, and
`Public()` reads bytes 32..63; `goodKey` is the predicate that this key
material is a genuine keypair, under which signature verification accepts
a freshly produced signature.  `enc`/`dec` model base58 encode/decode:
encoding then decoding returns the original bytes, and decoding rejects
malformed text by returning `none`. -/
structure SigScheme where
  T : Type
  sign : List Nat → List Nat → List Nat
  verify : List Nat → List Nat → List Nat → Bool
  enc : List Nat → T
  dec : T → Option (List Nat)
  goodKey : List Nat → Prop
  dec_enc : ∀ b, dec (enc b) = some b
  verify_sign : ∀ sk msg, goodKey sk → verify (List.drop 32 sk) msg (sign sk msg) = true

/-- Outcome of a Go call that can fail: a returned `error`, or a runtime
panic (which the Go source does not catch). -/
inductive GoFailure where
  | goError (msg : String) : GoFailure
  | panicked : GoFailure
deriving DecidableEq

/-- Model of `SignatureHeader` (`exchange.go`). -/
structure SignatureHeader where
  timestamp : Int
  expiryWindow : Int
  type : String
deriving DecidableEq

/-- Model of `Exchange` (`exchange.go`): account id plus the ed25519
keypair bytes. -/
structure Exchange (S : SigScheme) where
  accountID : String
  privateKey : List Nat
  publicKey : List Nat

/-- Model of `NewExchange`: base58-decode the private key text (returning
the decode error if it is malformed), then take `privateKey.Public()`,
which in Go slices `priv[32:]` — an operation that panics when the decoded
material is shorter than 32 bytes.  No other validation is performed. -/
def NewExchange (S : SigScheme) (privateKeyBase58 : S.T) (accountID : String) :
    Except GoFailure (Exchange S) :=
  match S.dec privateKeyBase58 with
  | none => .error (.goError "failed to decode private key")
  | some privateKeyBytes =>
    if privateKeyBytes.length < 32 then .error .panicked
    else .ok ⟨accountID, privateKeyBytes, privateKeyBytes.drop 32⟩

/-- Model of `GetPublicKey`: base58 encoding of the stored public key. -/
def GetPublicKey {S : SigScheme} (s : Exchange S) : S.T := S.enc s.publicKey

/-- Model of `signMessage`: sign the message bytes with the private key
and base58-encode the signature.  Go `ed25519.Sign` panics unless the
private key is exactly 64 bytes long. -/
def signMessage {S : SigScheme} (s : Exchange S) (message : String) :
    Except GoFailure S.T :=
  if s.privateKey.length = 64 then .ok (S.enc (S.sign s.privateKey (strBytes message)))
  else .error .panicked

/-- Envelope combined and signed by `CreateSignature`: the Go map literal
`\x7btimestamp, expiry_window, type, data\x7d`. -/
def dataToSign (timestamp expiryWindow : Int) (operationType : String)
    (operationData : Json) : Json :=
  .obj [("timestamp", .num timestamp), ("expiry_window", .num expiryWindow),
    ("type", .str operationType), ("data", operationData)]

/-- Model of `CreateSignature`: default the expiry window to 30000 ms when
the caller passes exactly 0, build the header and the envelope, canonicalize
and sign.  The wall clock read (`time.Now().UnixMilli()`) is passed in as
the `timestamp` argument. -/
def CreateSignature {S : SigScheme} (s : Exchange S) (operationType : String)
    (operationData : Json) (expiryWindow : Int) (timestamp : Int) :
    Except GoFailure (SignatureHeader × S.T) :=
  let ew := if expiryWindow = 0 then 30000 else expiryWindow
  let header : SignatureHeader := ⟨timestamp, ew, operationType⟩
  let compactJSON := createCompactJSON (dataToSign timestamp ew operationType operationData)
  match signMessage s compactJSON with
  | .error e => .error e
  | .ok signature => .ok (header, signature)

/-- Model of `VerifySignature`: base58-decode the signature text, returning
`false` on malformed encoding, then verify against the stored public key
and the given message bytes. -/
def VerifySignature {S : SigScheme} (s : Exchange S) (message : String)
    (signature : S.T) : Bool :=
  match S.dec signature with
  | none => false
  | some signatureBytes => S.verify s.publicKey (strBytes message) signatureBytes

/-- Value slot of the outbound request map built by `BuildSignedRequest`:
either a JSON value taken from the flattened operation data (or the
account string or a timestamp), or a base58 text produced by the signer
(public key or signature). -/
inductive ReqVal (S : SigScheme) where
  | js (j : Json) : ReqVal S
  | txt (t : S.T) : ReqVal S

/-- Assignment `m[k] = v` on a Go map modelled as an association list:
overwrite the entry when the key is present, append it otherwise.  (A Go
map is unordered, so the position of the entry in the list is a modelling
artifact; only `List.lookup` results matter.) -/
def mapInsert {α : Type} : List (String × α) → String → α → List (String × α)
  | [], k, v => [(k, v)]
  | p :: tl, k, v => if p.1 = k then (k, v) :: tl else p :: mapInsert tl k v

/-- Result of `json.Marshal` followed by `json.Unmarshal` into
`map[string]interface\x7b\x7d`, applied to the operation data: an object
yields its entries, JSON `null` unmarshals into a nil map (no error, no
entries), and any other top-level value makes `json.Unmarshal` fail. -/
def dataMapOf : Json → Option (List (String × Json))
  | .obj fs => some fs
  | .null => some []
  | _ => none

/-- The five authentication fields `BuildSignedRequest` always writes
before flattening the operation data over them. -/
def reservedAuthKeys : List String :=
  ["account", "agent_wallet", "signature", "timestamp", "expiry_window"]

/-- Model of `BuildSignedRequest`: create the signature, convert the
operation data into a flat field map (failing exactly when `json.Unmarshal`
into a map would fail), build the request map with the five authentication
fields, and then copy every operation-data field into it with plain
`request[k] = v` assignments, silently overwriting on any name
collision. -/
def BuildSignedRequest {S : SigScheme} (s : Exchange S) (operationType : String)
    (operationData : Json) (expiryWindow : Int) (timestamp : Int) :
    Except GoFailure (List (String × ReqVal S)) :=
  match CreateSignature s operationType operationData expiryWindow timestamp with
  | .error e => .error e
  | .ok (header, signature) =>
    match dataMapOf operationData with
    | none => .error (.goError "failed to unmarshal operation data")
    | some dataMap =>
      let request : List (String × ReqVal S) :=
        [("account", .js (.str s.accountID)),
         ("agent_wallet", .txt (GetPublicKey s)),
         ("signature", .txt signature),
         ("timestamp", .js (.num header.timestamp)),
         ("expiry_window", .js (.num header.expiryWindow))]
      .ok (dataMap.foldl (fun m p => mapInsert m p.1 (.js p.2)) request)

/-- Channel name constants of `ws_types.go`. -/
def ChannelPrices : String := "prices"

/-- Channel name for the order book stream. -/
def ChannelOrderBook : String := "book"

/-- Channel name for the trades stream. -/
def ChannelTrades : String := "trades"

/-- Channel name for the candle stream. -/
def ChannelCandle : String := "candle"

/-- Model of `key` (`ws_utils.go`): colon-join of the parts. -/
def key (args : List String) : String := String.intercalate ":" args

/-- Stream key for an order book subscription. -/
def keyOrderBook (coin : String) : String := key [ChannelOrderBook, coin]

/-- Stream key for a trades subscription. -/
def keyTrades (coin : String) : String := key [ChannelTrades, coin]

/-- Stream key for the prices subscription. -/
def keyPrices : String := key [ChannelPrices]

/-- Stream key for a candle subscription. -/
def keyCandle (coin interval : String) : String := key [ChannelCandle, coin, interval]

/-- Remote subscription payloads of `ws_types_remote.go`; each carries the
channel name in its `source` field plus its discriminating fields. -/
inductive RemotePayload where
  | orderBook (source symbol : String) (aggLevel : Int) : RemotePayload
  | prices (source : String) : RemotePayload
  | trades (source symbol : String) : RemotePayload
  | candle (source symbol interval : String) : RemotePayload
deriving DecidableEq

/-- Stream key derivation (`Key()` methods of `ws_types_remote.go`). -/
def RemotePayload.streamKey : RemotePayload → String
  | .orderBook _ symbol _ => keyOrderBook symbol
  | .prices _ => keyPrices
  | .trades _ symbol => keyTrades symbol
  | .candle _ symbol interval => keyCandle symbol interval

/-- Outbound websocket command (`wsCommand` of `ws_types.go`) as issued by
`sendSubscribe`, `sendUnsubscribe` and `sendPing`. -/
inductive WsCmd where
  | subscribe (params : RemotePayload) : WsCmd
  | unsubscribe (params : RemotePayload) : WsCmd
  | ping : WsCmd
deriving DecidableEq

/-- Model of `uniqSubscriber`: one reference-counted subscriber group for
one stream key.  Go callbacks are opaque; each registered callback is
modelled by a numeric tag paired with its subscription id.  Subscription
ids are modelled by the value of the global counter (`nextSubID`); the Go
id string `key(pKey, strconv.Itoa(id))` is injective in that counter for a
fixed key, so nothing is lost. -/
structure Group where
  subs : List (Int × Nat)
  count : Int
  payload : RemotePayload
deriving DecidableEq

/-- Model of `uniqSubscriber.subscribe`: register the callback under the
id unless the id is already present, increment the count, and report
whether the count transitioned 0 to 1 (in which case the caller fires the
upstream subscribe hook). -/
def uniqSubscribe (g : Group) (id : Int) (cb : Nat) : Group × Bool :=
  if (g.subs.map Prod.fst).contains id then (g, false)
  else
    let g2 : Group := ⟨g.subs ++ [(id, cb)], g.count + 1, g.payload⟩
    (g2, g.count + 1 = 1)

/-- Model of `uniqSubscriber.unsubscribe`: remove the callback if the id
is present, decrement the count, and report whether the count transitioned
1 to 0 (in which case the caller fires the upstream unsubscribe hook). -/
def uniqUnsubscribe (g : Group) (id : Int) : Group × Bool :=
  if (g.subs.map Prod.fst).contains id then
    let g2 : Group := ⟨g.subs.filter (fun p => !(p.1 == id)), g.count - 1, g.payload⟩
    (g2, g.count - 1 = 0)
  else (g, false)

/-- Model of `uniqSubscriber.clear`: drop all callbacks, zero the count,
and fire the unsubscribe hook. -/
def uniqClear (g : Group) : Group := ⟨[], 0, g.payload⟩

/-- State of a `WebsocketClient`: whether a transport handle exists
(`conn != nil`), whether the `done` channel has been closed, whether
`closeOnce` has fired, the current reconnect backoff in seconds, the
subscriber registry, and the id counter. -/
structure WsState where
  connOpen : Bool
  doneClosed : Bool
  closedOnce : Bool
  reconnectWait : Nat
  subscribers : List (String × Group)
  nextSubID : Int
deriving DecidableEq

/-- Model of `NewWebsocketClient`: backoff starts at one second, no
transport, empty registry. -/
def NewWebsocketClient : WsState :=
  ⟨false, false, false, 1, [], 0⟩

/-- Model of `WebsocketClient.subscribe`: reject a nil callback; ensure a
group exists for the payload's stream key (creating one stores the payload
for later resubscribes); draw a fresh id from the counter; register with
the group, sending the upstream subscribe command exactly when the group
count moved 0 to 1.  Returns the new state, the upstream commands issued,
and the subscription id baked into the returned handle. -/
def subscribeW (st : WsState) (payload : RemotePayload) (callback : Option Nat) :
    Except String (WsState × List WsCmd × Int) :=
  match callback with
  | none => .error "callback cannot be nil"
  | some cb =>
    let pKey := payload.streamKey
    let g0 : Group :=
      match st.subscribers.lookup pKey with
      | some g => g
      | none => ⟨[], 0, payload⟩
    let subs1 :=
      match st.subscribers.lookup pKey with
      | some _ => st.subscribers
      | none => mapInsert st.subscribers pKey g0
    let nextID := st.nextSubID + 1
    let r := uniqSubscribe g0 nextID cb
    let cmds := if r.2 then [WsCmd.subscribe g0.payload] else []
    .ok (⟨st.connOpen, st.doneClosed, st.closedOnce, st.reconnectWait,
      mapInsert subs1 pKey r.1, nextID⟩, cmds, nextID)

/-- Model of the `Close` hook of a returned `Subscription` for id `subID`
on stream key `pKey` (`uniqSubscriber.unsubscribe` plus the unsubscribe
hook installed by `WebsocketClient.subscribe`, which removes the group
from the registry and sends the upstream unsubscribe command on the 1 to 0
transition).  Ids are globally unique, so addressing the group through the
registry instead of through the closure-captured pointer is faithful: a
stale handle's id can never be found in a newer group. -/
def unsubscribeW (st : WsState) (pKey : String) (subID : Int) :
    WsState × List WsCmd :=
  match st.subscribers.lookup pKey with
  | none => (st, [])
  | some g =>
    let r := uniqUnsubscribe g subID
    if r.2 then
      (⟨st.connOpen, st.doneClosed, st.closedOnce, st.reconnectWait,
        st.subscribers.filter (fun p => !(p.1 == pKey)), st.nextSubID⟩,
       [WsCmd.unsubscribe g.payload])
    else
      (⟨st.connOpen, st.doneClosed, st.closedOnce, st.reconnectWait,
        mapInsert st.subscribers pKey r.1, st.nextSubID⟩, [])

/-- Valid candle intervals (`ws_sub_candle.go`). -/
def validIntervals : List String :=
  ["1m", "3m", "5m", "15m", "30m", "1h", "2h", "4h", "8h", "12h", "1d"]

/-- Model of `WebsocketClient.Candle`: reject an interval outside
`validIntervals` before touching any state or sending anything, otherwise
subscribe with the remote candle payload. -/
def CandleW (st : WsState) (symbol interval : String) (callback : Option Nat) :
    Except String (WsState × List WsCmd × Int) :=
  if !(validIntervals.contains interval) then
    .error ("invalid interval: " ++ interval)
  else
    subscribeW st (.candle ChannelCandle symbol interval) callback

/-- Model of the private `close` method: close the `done` channel; if a
transport handle exists, close it and return at once — the loop that would
clear the subscriber groups sits after that `return` and is never reached
in this case.  Only when no transport exists does the method clear every
group, firing each group's unsubscribe hook (whose network write fails
silently, the connection being gone). -/
def closeInner (st : WsState) : WsState × List WsCmd :=
  if st.connOpen then
    (⟨false, true, st.closedOnce, st.reconnectWait, st.subscribers, st.nextSubID⟩, [])
  else
    (⟨false, true, st.closedOnce, st.reconnectWait, [], st.nextSubID⟩,
     st.subscribers.map (fun p => WsCmd.unsubscribe p.2.payload))

/-- Model of `WebsocketClient.Close`: `sync.Once` makes every call after
the first a no-op. -/
def CloseW (st : WsState) : WsState × List WsCmd :=
  if st.closedOnce then (st, [])
  else
    let r := closeInner st
    (⟨r.1.connOpen, r.1.doneClosed, true, r.1.reconnectWait, r.1.subscribers,
      r.1.nextSubID⟩, r.2)

/-- Backoff update after one failed reconnect attempt: double the wait,
capping at one minute (60 seconds). -/
def backoffStep (w : Nat) : Nat :=
  if w * 2 > 60 then 60 else w * 2

/-- Model of `WebsocketClient.reconnect` with `failures` failed connect
attempts before a success: if shutdown was signalled, return at once;
otherwise each failed attempt sleeps the current `reconnectWait` (recorded
in the returned list) and then doubles it with the one-minute cap, and the
eventual successful attempt re-establishes the transport.  The wait field
is never reset by a successful connect. -/
def reconnectW : WsState → Nat → WsState × List Nat
  | st, 0 =>
    if st.doneClosed then (st, [])
    else (⟨true, st.doneClosed, st.closedOnce, st.reconnectWait, st.subscribers,
      st.nextSubID⟩, [])
  | st, n + 1 =>
    if st.doneClosed then (st, [])
    else
      let r := reconnectW ⟨st.connOpen, st.doneClosed, st.closedOnce,
        backoffStep st.reconnectWait, st.subscribers, st.nextSubID⟩ n
      (r.1, st.reconnectWait :: r.2)

/-- Concrete instantiation of the cryptography interface, used to evaluate
theorems on explicit inputs: a signature is the public half of the key
followed by the message bytes, verification checks that shape, and the text
encoding is the identity on byte lists. -/
def plainScheme : SigScheme where
  T := List Nat
  sign := fun sk msg => sk.drop 32 ++ msg
  verify := fun pk msg sg => decide (sg = pk ++ msg)
  enc := fun b => b
  dec := fun b => some b
  goodKey := fun _ => True
  dec_enc := fun _ => rfl
  verify_sign := fun sk msg _ => by simp

/-- A 64-byte private key for concrete evaluation. -/
def plainKey : List Nat := List.replicate 64 0

/-- Concrete exchange, as `NewExchange` would build it from `plainKey`. -/
def plainExchange : Exchange plainScheme :=
  ⟨"test_account_id", plainKey, plainKey.drop 32⟩

theorem sortF_eq_map (l : List (String × Json)) :
    sortF l = l.map (fun p => (p.1, sortJSONKeys p.2)) := by
  induction l with
  | nil => simp [sortF]
  | cons p tl ih => cases p with
    | mk k v => simp [sortF, ih]

theorem sortL_eq_map (xs : List Json) : sortL xs = xs.map sortJSONKeys := by
  induction xs with
  | nil => simp [sortL]
  | cons x tl ih => simp [sortL, ih]

theorem marshalF_eq_map (l : List (String × Json)) :
    marshalF l = l.map (fun p => quoteStr p.1 ++ ":" ++ marshal p.2) := by
  induction l with
  | nil => simp [marshalF]
  | cons p tl ih => cases p with
    | mk k v => simp [marshalF, ih]

theorem marshalL_eq_map (xs : List Json) : marshalL xs = xs.map marshal := by
  induction xs with
  | nil => simp [marshalL]
  | cons x tl ih => simp [marshalL, ih]

theorem wfF_iff (l : List (String × Json)) :
    wfF l = true ↔ ∀ p ∈ l, wfJ p.2 = true := by
  induction l with
  | nil => simp [wfF]
  | cons p tl ih => cases p with
    | mk k v =>
      simp [wfF, Bool.and_eq_true, ih]

theorem wfL_iff (xs : List Json) : wfL xs = true ↔ ∀ x ∈ xs, wfJ x = true := by
  induction xs with
  | nil => simp [wfL]
  | cons x tl ih => simp [wfL, Bool.and_eq_true, ih]

theorem sortedKeysF_iff (l : List (String × Json)) :
    sortedKeysF l = true ↔ ∀ p ∈ l, sortedKeysB p.2 = true := by
  induction l with
  | nil => simp [sortedKeysF]
  | cons p tl ih => cases p with
    | mk k v => simp [sortedKeysF, Bool.and_eq_true, ih]

theorem sortedKeysL_iff (xs : List Json) :
    sortedKeysL xs = true ↔ ∀ x ∈ xs, sortedKeysB x = true := by
  induction xs with
  | nil => simp [sortedKeysL]
  | cons x tl ih => simp [sortedKeysL, Bool.and_eq_true, ih]

theorem nodupKeysB_iff (l : List String) : nodupKeysB l = true ↔ l.Nodup := by
  induction l with
  | nil => simp [nodupKeysB]
  | cons k ks ih =>
    simp [nodupKeysB, Bool.and_eq_true, ih, List.nodup_cons]

theorem strictAscB_of_pairwise :
    ∀ l : List String, l.Pairwise (· < ·) → strictAscB l = true
  | [], _ => rfl
  | [_], _ => rfl
  | a :: b :: tl, h => by
    rw [List.pairwise_cons] at h
    have hab : a < b := h.1 b (by simp)
    have htl := strictAscB_of_pairwise (b :: tl) h.2
    simp [strictAscB, hab, htl]

theorem sortPairs_perm {α : Type} (l : List (String × α)) : (sortPairs l).Perm l :=
  List.perm_insertionSort keyLE l

theorem sortPairs_sorted {α : Type} (l : List (String × α)) :
    (sortPairs l).Pairwise keyLE :=
  List.sorted_insertionSort keyLE l

theorem sortPairs_pairwise_lt {α : Type} (l : List (String × α))
    (hnd : (l.map Prod.fst).Nodup) : (sortPairs l).Pairwise keyLT := by
  have hperm : ((sortPairs l).map Prod.fst).Perm (l.map Prod.fst) :=
    (sortPairs_perm l).map Prod.fst
  have hnd2 : ((sortPairs l).map Prod.fst).Nodup := hperm.nodup_iff.mpr hnd
  have hne : (sortPairs l).Pairwise (fun a b => a.1 ≠ b.1) :=
    (List.pairwise_map).mp hnd2
  have hle := sortPairs_sorted l
  exact (hle.and hne).imp (fun h => lt_of_le_of_ne h.1 h.2)

theorem sortPairs_eq_of_perm {α : Type} {l1 l2 : List (String × α)}
    (hp : l1.Perm l2) (hnd : (l1.map Prod.fst).Nodup) : sortPairs l1 = sortPairs l2 := by
  have hnd2 : (l2.map Prod.fst).Nodup := ((hp.map Prod.fst).nodup_iff).mp hnd
  refine List.eq_of_perm_of_sorted (r := keyLT) ?_ ?_ ?_
  · exact (sortPairs_perm l1).trans (hp.trans (sortPairs_perm l2).symm)
  · exact sortPairs_pairwise_lt l1 hnd
  · exact sortPairs_pairwise_lt l2 hnd2

theorem orderedInsert_map_snd {α β : Type} (f : α → β) (a : String × α) :
    ∀ l : List (String × α),
      (List.orderedInsert keyLE a l).map (fun p => (p.1, f p.2)) =
        List.orderedInsert keyLE (a.1, f a.2) (l.map (fun p => (p.1, f p.2)))
  | [] => rfl
  | b :: tl => by
    by_cases h : keyLE a b
    · have h2 : keyLE (a.1, f a.2) (b.1, f b.2) := h
      simp [List.orderedInsert, h, h2]
    · have h2 : ¬ keyLE (a.1, f a.2) (b.1, f b.2) := h
      simp [List.orderedInsert, h, h2, orderedInsert_map_snd f a tl]

theorem sortPairs_map_snd {α β : Type} (f : α → β) :
    ∀ l : List (String × α),
      (sortPairs l).map (fun p => (p.1, f p.2)) = sortPairs (l.map (fun p => (p.1, f p.2)))
  | [] => rfl
  | a :: tl => by
    have ih := sortPairs_map_snd f tl
    simp [sortPairs, List.insertionSort] at ih ⊢
    rw [orderedInsert_map_snd f a, ih]

theorem json_sizeOf_pos (j : Json) : 0 < sizeOf j := by
  cases j <;> simp_arith

theorem sizeOf_mem_arr {xs : List Json} {x : Json} (h : x ∈ xs) :
    sizeOf x < sizeOf (Json.arr xs) := by
  have h1 := List.sizeOf_lt_of_mem h
  simp only [Json.arr.sizeOf_spec]
  omega

theorem sizeOf_mem_obj {fs : List (String × Json)} {p : String × Json} (h : p ∈ fs) :
    sizeOf p.2 < sizeOf (Json.obj fs) := by
  have h1 := List.sizeOf_lt_of_mem h
  cases p with
  | mk k v =>
    simp only [Json.obj.sizeOf_spec]
    simp at h1
    omega

/-- Rendered `"key":value` piece from a key and an already rendered
value. -/
def renderKV (q : String × String) : String := quoteStr q.1 ++ ":" ++ q.2

theorem marshalF_as_render (l : List (String × Json)) :
    marshalF l = (l.map (fun p => (p.1, marshal p.2))).map renderKV := by
  rw [marshalF_eq_map, List.map_map]
  rfl

theorem marshalF_sortPairs_as_render (l : List (String × Json)) :
    marshalF (sortPairs l) =
      (sortPairs (l.map (fun p => (p.1, marshal p.2)))).map renderKV := by
  rw [marshalF_as_render, sortPairs_map_snd]

theorem marshalL_eq_of_listRel {xs ys : List Json} (h : ListRel EqJ xs ys)
    (hamb : ∀ x ∈ xs, ∀ b, EqJ x b → wfJ x = true → wfJ b = true → marshal x = marshal b)
    (hwx : wfL xs = true) (hwy : wfL ys = true) : marshalL xs = marshalL ys := by
  induction h with
  | nil => rfl
  | cons x y xs ys hxy htl ih =>
    rw [wfL_iff] at hwx hwy
    have hhd : marshal x = marshal y :=
      hamb x (by simp) y hxy (hwx x (by simp)) (hwy y (by simp))
    have htl2 : marshalL xs = marshalL ys := by
      refine ih (fun z hz b hb hw1 hw2 => hamb z (by simp [hz]) b hb hw1 hw2) ?_ ?_
      · rw [wfL_iff]
        exact fun z hz => hwx z (by simp [hz])
      · rw [wfL_iff]
        exact fun z hz => hwy z (by simp [hz])
    simp [marshalL, hhd, htl2]

theorem mapF_perm_of_fieldsRel {fs gs : List (String × Json)} (h : FieldsRel EqJ fs gs)
    (hamb : ∀ p ∈ fs, ∀ b, EqJ p.2 b → wfJ p.2 = true → wfJ b = true →
      marshal p.2 = marshal b)
    (hwf : wfF fs = true) (hwg : wfF gs = true) :
    (fs.map (fun p => (p.1, marshal p.2))).Perm (gs.map (fun p => (p.1, marshal p.2))) := by
  induction h with
  | nil => exact List.Perm.refl _
  | cons k v w fs l1 l2 hvw htl ih =>
    rw [wfF_iff] at hwf hwg
    have hv : wfJ v = true := hwf (k, v) (by simp)
    have hw : wfJ w = true := hwg (k, w) (by simp)
    have hvw2 : marshal v = marshal w := hamb (k, v) (by simp) w hvw hv hw
    have htl2 : (fs.map (fun p => (p.1, marshal p.2))).Perm
        ((l1 ++ l2).map (fun p => (p.1, marshal p.2))) := by
      refine ih (fun p hp b hb hw1 hw2 => hamb p (by simp [hp]) b hb hw1 hw2) ?_ ?_
      · rw [wfF_iff]
        exact fun p hp => hwf p (by simp [hp])
      · rw [wfF_iff]
        intro p hp
        rcases List.mem_append.mp hp with h1 | h2
        · exact hwg p (by simp [h1])
        · exact hwg p (by simp [h2])
    simp only [List.map_cons, List.map_append]
    have step1 : (((k, v).1, marshal (k, v).2) ::
        fs.map (fun p => (p.1, marshal p.2))).Perm
        ((k, marshal w) :: (l1 ++ l2).map (fun p => (p.1, marshal p.2))) := by
      simpa [hvw2] using List.Perm.cons (k, marshal w) htl2
    have step2 : ((k, marshal w) ::
        (l1 ++ l2).map (fun p => (p.1, marshal p.2))).Perm
        (l1.map (fun p => (p.1, marshal p.2)) ++ (k, marshal w) ::
          l2.map (fun p => (p.1, marshal p.2))) := by
      rw [List.map_append]
      exact List.perm_middle.symm
    exact step1.trans step2

theorem marshal_eq_of_eqJ_bounded :
    ∀ n, ∀ a b : Json, sizeOf a ≤ n → EqJ a b → wfJ a = true → wfJ b = true →
      marshal a = marshal b := by
  intro n
  induction n with
  | zero =>
    intro a b h
    exact absurd h (by have := json_sizeOf_pos a; omega)
  | succ n ih =>
    intro a b hsz heq hwa hwb
    cases heq with
    | null => rfl
    | bool b => rfl
    | num n => rfl
    | str s => rfl
    | arr xs ys hL =>
      have hamb : ∀ x ∈ xs, ∀ c, EqJ x c → wfJ x = true → wfJ c = true →
          marshal x = marshal c := by
        intro x hx c hc hw1 hw2
        have hlt := sizeOf_mem_arr hx
        exact ih x c (by omega) hc hw1 hw2
      have h1 : wfL xs = true := by simpa [wfJ] using hwa
      have h2 : wfL ys = true := by simpa [wfJ] using hwb
      simp only [marshal]
      rw [marshalL_eq_of_listRel hL hamb h1 h2]
    | obj fs gs hP =>
      have hamb : ∀ p ∈ fs, ∀ c, EqJ p.2 c → wfJ p.2 = true → wfJ c = true →
          marshal p.2 = marshal c := by
        intro p hp c hc hw1 hw2
        have hlt := sizeOf_mem_obj hp
        exact ih p.2 c (by omega) hc hw1 hw2
      have hwa2 := hwa
      have hwb2 := hwb
      simp only [wfJ, Bool.and_eq_true] at hwa2 hwb2
      have hnd1 : (fs.map Prod.fst).Nodup := (nodupKeysB_iff _).mp hwa2.1
      have hpm := mapF_perm_of_fieldsRel hP hamb hwa2.2 hwb2.2
      have hndF : ((fs.map (fun p => (p.1, marshal p.2))).map Prod.fst).Nodup := by
        simpa [List.map_map, Function.comp] using hnd1
      have hsp := sortPairs_eq_of_perm hpm hndF
      simp only [marshal]
      rw [marshalF_sortPairs_as_render, marshalF_sortPairs_as_render, hsp]

theorem sortPairs_idem {α : Type} (l : List (String × α)) :
    sortPairs (sortPairs l) = sortPairs l :=
  List.Sorted.insertionSort_eq (sortPairs_sorted l)

theorem marshal_sortJSONKeys_bounded :
    ∀ n, ∀ j : Json, sizeOf j ≤ n → marshal (sortJSONKeys j) = marshal j := by
  intro n
  induction n with
  | zero =>
    intro j h
    exact absurd h (by have := json_sizeOf_pos j; omega)
  | succ n ih =>
    intro j hsz
    cases j with
    | null => rfl
    | bool b => cases b <;> rfl
    | num m => rfl
    | str s => rfl
    | arr xs =>
      simp only [sortJSONKeys, marshal]
      rw [sortL_eq_map, marshalL_eq_map, marshalL_eq_map, List.map_map]
      have hmap : List.map (marshal ∘ sortJSONKeys) xs = List.map marshal xs := by
        apply List.map_congr_left
        intro x hx
        have hlt := sizeOf_mem_arr hx
        simpa using ih x (by omega)
      rw [hmap]
    | obj fs =>
      simp only [sortJSONKeys, marshal]
      rw [sortPairs_idem, sortF_eq_map, ← sortPairs_map_snd sortJSONKeys fs,
        marshalF_eq_map, marshalF_eq_map, List.map_map]
      have hmap : List.map ((fun p => quoteStr p.1 ++ ":" ++ marshal p.2) ∘
          fun p => (p.1, sortJSONKeys p.2)) (sortPairs fs) =
          List.map (fun p => quoteStr p.1 ++ ":" ++ marshal p.2) (sortPairs fs) := by
        apply List.map_congr_left
        intro p hp
        have hp2 : p ∈ fs := ((sortPairs_perm fs).mem_iff).mp hp
        have hlt := sizeOf_mem_obj hp2
        have hv := ih p.2 (by omega)
        simp [hv]
      rw [hmap]

theorem marshal_sortJSONKeys (j : Json) : marshal (sortJSONKeys j) = marshal j :=
  marshal_sortJSONKeys_bounded (sizeOf j) j (le_refl _)

/-- Canonical compact JSON output is invariant under reordering object
keys: structurally equal values with duplicate-free keys produce byte
identical output. -/
theorem createCompactJSON_eq_of_eqJ {a b : Json} (heq : EqJ a b)
    (hwa : wfJ a = true) (hwb : wfJ b = true) :
    createCompactJSON a = createCompactJSON b := by
  have hm := marshal_eq_of_eqJ_bounded (sizeOf a) a b (le_refl _) heq hwa hwb
  unfold createCompactJSON
  rw [marshal_sortJSONKeys, marshal_sortJSONKeys, hm]

theorem sortedKeys_sortJSONKeys_bounded :
    ∀ n, ∀ j : Json, sizeOf j ≤ n → wfJ j = true →
      sortedKeysB (sortJSONKeys j) = true := by
  intro n
  induction n with
  | zero =>
    intro j h
    exact absurd h (by have := json_sizeOf_pos j; omega)
  | succ n ih =>
    intro j hsz hwf
    cases j with
    | null => rfl
    | bool b => rfl
    | num m => rfl
    | str s => rfl
    | arr xs =>
      simp only [sortJSONKeys, sortedKeysB]
      rw [sortedKeysL_iff]
      intro x hx
      rw [sortL_eq_map] at hx
      rcases List.mem_map.mp hx with ⟨y, hy, rfl⟩
      have hlt := sizeOf_mem_arr hy
      have hwfy : wfJ y = true := by
        have h1 : wfL xs = true := by simpa [wfJ] using hwf
        exact (wfL_iff xs).mp h1 y hy
      exact ih y (by omega) hwfy
    | obj fs =>
      have hwf2 := hwf
      simp only [wfJ, Bool.and_eq_true] at hwf2
      have hnd : (fs.map Prod.fst).Nodup := (nodupKeysB_iff _).mp hwf2.1
      simp only [sortJSONKeys, sortedKeysB, Bool.and_eq_true]
      constructor
      · apply strictAscB_of_pairwise
        have hndm : ((sortF fs).map Prod.fst).Nodup := by
          rw [sortF_eq_map]
          simpa [List.map_map, Function.comp] using hnd
        have hplt := sortPairs_pairwise_lt (sortF fs) hndm
        exact (List.pairwise_map).mpr hplt
      · rw [sortedKeysF_iff]
        intro p hp
        have hp2 : p ∈ sortF fs := ((sortPairs_perm (sortF fs)).mem_iff).mp hp
        rw [sortF_eq_map] at hp2
        rcases List.mem_map.mp hp2 with ⟨q, hq, rfl⟩
        have hlt := sizeOf_mem_obj hq
        have hwfq : wfJ q.2 = true := (wfF_iff fs).mp hwf2.2 q hq
        exact ih q.2 (by omega) hwfq

theorem sortedKeys_sortJSONKeys (j : Json) (h : wfJ j = true) :
    sortedKeysB (sortJSONKeys j) = true :=
  sortedKeys_sortJSONKeys_bounded (sizeOf j) j (le_refl _) h

theorem noSpaceL_iff (xs : List Json) :
    noSpaceL xs = true ↔ ∀ x ∈ xs, noSpaceJ x = true := by
  induction xs with
  | nil => simp [noSpaceL]
  | cons x tl ih => simp [noSpaceL, Bool.and_eq_true, ih]

theorem noSpaceF_iff (l : List (String × Json)) :
    noSpaceF l = true ↔ ∀ p ∈ l, noSpaceJ p.2 = true := by
  induction l with
  | nil => simp [noSpaceF]
  | cons p tl ih => cases p with
    | mk k v => simp [noSpaceF, Bool.and_eq_true, ih]

theorem wsFree_append {a b : String} (ha : wsFree a) (hb : wsFree b) :
    wsFree (a ++ b) := by
  intro c hc
  rw [String.data_append] at hc
  rcases List.mem_append.mp hc with h | h
  exacts [ha c h, hb c h]

theorem wsFree_of {s : String}
    (h : ∀ c ∈ s.data, c ≠ ' ' ∧ c ≠ '\t' ∧ c ≠ '\n') : wsFree s := h

theorem digitChar_ws (n : Nat) :
    digitChar n ≠ ' ' ∧ digitChar n ≠ '\t' ∧ digitChar n ≠ '\n' := by
  unfold digitChar
  split <;> decide

theorem hexDigit_ws (n : Nat) :
    hexDigit n ≠ ' ' ∧ hexDigit n ≠ '\t' ∧ hexDigit n ≠ '\n' := by
  unfold hexDigit
  split <;> decide

theorem natDigits_ws :
    ∀ fuel n, ∀ c ∈ natDigits fuel n, c ≠ ' ' ∧ c ≠ '\t' ∧ c ≠ '\n' := by
  intro fuel
  induction fuel with
  | zero => simp [natDigits]
  | succ fuel ih =>
    intro n c hc
    rw [natDigits] at hc
    by_cases h : n < 10
    · simp [h] at hc
      subst hc
      exact digitChar_ws n
    · simp [h] at hc
      rcases hc with h1 | h1
      · exact ih (n / 10) c h1
      · subst h1
        exact digitChar_ws (n % 10)

theorem natStr_ws (n : Nat) : wsFree (natStr n) :=
  fun c hc => natDigits_ws (n + 1) n c hc

theorem intStr_ws (n : Int) : wsFree (intStr n) := by
  unfold intStr
  split
  · exact wsFree_append (wsFree_of (by decide)) (natStr_ws _)
  · exact natStr_ws _

theorem escChar_ws (c : Char) (h : c ≠ ' ') :
    ∀ c2 ∈ escChar c, c2 ≠ ' ' ∧ c2 ≠ '\t' ∧ c2 ≠ '\n' := by
  intro c2 hc2
  rw [escChar] at hc2
  by_cases h1 : c = '"'
  · rw [if_pos h1] at hc2
    exact (by decide : ∀ x ∈ ['\\', '"'], x ≠ ' ' ∧ x ≠ '\t' ∧ x ≠ '\n') c2 hc2
  rw [if_neg h1] at hc2
  by_cases h2 : c = '\\'
  · rw [if_pos h2] at hc2
    exact (by decide : ∀ x ∈ ['\\', '\\'], x ≠ ' ' ∧ x ≠ '\t' ∧ x ≠ '\n') c2 hc2
  rw [if_neg h2] at hc2
  by_cases h3 : c = '\n'
  · rw [if_pos h3] at hc2
    exact (by decide : ∀ x ∈ ['\\', 'n'], x ≠ ' ' ∧ x ≠ '\t' ∧ x ≠ '\n') c2 hc2
  rw [if_neg h3] at hc2
  by_cases h4 : c = '\r'
  · rw [if_pos h4] at hc2
    exact (by decide : ∀ x ∈ ['\\', 'r'], x ≠ ' ' ∧ x ≠ '\t' ∧ x ≠ '\n') c2 hc2
  rw [if_neg h4] at hc2
  by_cases h5 : c = '\t'
  · rw [if_pos h5] at hc2
    exact (by decide : ∀ x ∈ ['\\', 't'], x ≠ ' ' ∧ x ≠ '\t' ∧ x ≠ '\n') c2 hc2
  rw [if_neg h5] at hc2
  by_cases h6 : c.toNat < 32
  · rw [if_pos h6] at hc2
    simp only [List.mem_cons, List.not_mem_nil, or_false] at hc2
    rcases hc2 with rfl | rfl | rfl | rfl | rfl | rfl
    · decide
    · decide
    · decide
    · decide
    · exact hexDigit_ws _
    · exact hexDigit_ws _
  rw [if_neg h6] at hc2
  by_cases h7 : c = '<'
  · rw [if_pos h7] at hc2
    exact (by decide : ∀ x ∈ ['\\', 'u', '0', '0', '3', 'c'],
      x ≠ ' ' ∧ x ≠ '\t' ∧ x ≠ '\n') c2 hc2
  rw [if_neg h7] at hc2
  by_cases h8 : c = '>'
  · rw [if_pos h8] at hc2
    exact (by decide : ∀ x ∈ ['\\', 'u', '0', '0', '3', 'e'],
      x ≠ ' ' ∧ x ≠ '\t' ∧ x ≠ '\n') c2 hc2
  rw [if_neg h8] at hc2
  by_cases h9 : c = '&'
  · rw [if_pos h9] at hc2
    exact (by decide : ∀ x ∈ ['\\', 'u', '0', '0', '2', '6'],
      x ≠ ' ' ∧ x ≠ '\t' ∧ x ≠ '\n') c2 hc2
  rw [if_neg h9] at hc2
  by_cases h10 : c.toNat = 8232
  · rw [if_pos h10] at hc2
    exact (by decide : ∀ x ∈ ['\\', 'u', '2', '0', '2', '8'],
      x ≠ ' ' ∧ x ≠ '\t' ∧ x ≠ '\n') c2 hc2
  rw [if_neg h10] at hc2
  by_cases h11 : c.toNat = 8233
  · rw [if_pos h11] at hc2
    exact (by decide : ∀ x ∈ ['\\', 'u', '2', '0', '2', '9'],
      x ≠ ' ' ∧ x ≠ '\t' ∧ x ≠ '\n') c2 hc2
  rw [if_neg h11] at hc2
  simp only [List.mem_cons, List.not_mem_nil, or_false] at hc2
  subst hc2
  exact ⟨h, h5, h3⟩

theorem quoteStr_ws (s : String) (h : ∀ c ∈ s.data, c ≠ ' ') :
    wsFree (quoteStr s) := by
  unfold quoteStr
  refine wsFree_append (wsFree_append (wsFree_of (by decide)) ?_) (wsFree_of (by decide))
  intro c hc
  rcases List.mem_flatMap.mp hc with ⟨a, ha, hca⟩
  exact escChar_ws a (h a ha) c hca

theorem wsFree_foldl (xs : List String) :
    ∀ acc, wsFree acc → (∀ s ∈ xs, wsFree s) →
      wsFree (xs.foldl (fun a b => a ++ "," ++ b) acc) := by
  induction xs with
  | nil =>
    intro acc hacc _
    exact hacc
  | cons x tl ih =>
    intro acc hacc hall
    simp only [List.foldl]
    refine ih _ (wsFree_append (wsFree_append hacc (wsFree_of (by decide))) (hall x (by simp))) ?_
    exact fun s hs => hall s (by simp [hs])

theorem commaJoin_ws {l : List String} (h : ∀ s ∈ l, wsFree s) :
    wsFree (commaJoin l) := by
  cases l with
  | nil =>
    intro c hc
    simp [commaJoin] at hc
  | cons x tl =>
    simp only [commaJoin]
    exact wsFree_foldl tl x (h x (by simp)) (fun s hs => h s (by simp [hs]))

theorem marshal_ws_bounded :
    ∀ n, ∀ j : Json, sizeOf j ≤ n → noSpaceJ j = true → wsFree (marshal j) := by
  intro n
  induction n with
  | zero =>
    intro j h
    exact absurd h (by have := json_sizeOf_pos j; omega)
  | succ n ih =>
    intro j hsz hns
    cases j with
    | null =>
      simp only [marshal]
      exact wsFree_of (by decide)
    | bool b =>
      cases b <;> simp only [marshal] <;> exact wsFree_of (by decide)
    | num m =>
      simp only [marshal]
      exact intStr_ws m
    | str s =>
      simp only [marshal]
      apply quoteStr_ws
      intro c hc
      have h1 : s.data.all (fun c => !(c == ' ')) = true := by simpa [noSpaceJ] using hns
      have h2 := List.all_eq_true.mp h1 c hc
      simpa using h2
    | arr xs =>
      simp only [marshal]
      refine wsFree_append (wsFree_append (wsFree_of (by decide)) ?_) (wsFree_of (by decide))
      apply commaJoin_ws
      intro s hs
      rw [marshalL_eq_map] at hs
      rcases List.mem_map.mp hs with ⟨y, hy, rfl⟩
      have hlt := sizeOf_mem_arr hy
      have hns2 : noSpaceL xs = true := by simpa [noSpaceJ] using hns
      exact ih y (by omega) ((noSpaceL_iff xs).mp hns2 y hy)
    | obj fs =>
      simp only [noSpaceJ, Bool.and_eq_true] at hns
      simp only [marshal]
      refine wsFree_append (wsFree_append (wsFree_of (by decide)) ?_) (wsFree_of (by decide))
      apply commaJoin_ws
      intro s hs
      rw [marshalF_eq_map] at hs
      rcases List.mem_map.mp hs with ⟨p, hp, rfl⟩
      have hp2 : p ∈ fs := ((sortPairs_perm fs).mem_iff).mp hp
      refine wsFree_append (wsFree_append ?_ (wsFree_of (by decide))) ?_
      · apply quoteStr_ws
        intro c hc
        have h1 := List.all_eq_true.mp hns.1 p.1 (List.mem_map.mpr ⟨p, hp2, rfl⟩)
        have h2 := List.all_eq_true.mp h1 c hc
        simpa using h2
      · have hlt := sizeOf_mem_obj hp2
        exact ih p.2 (by omega) ((noSpaceF_iff fs).mp hns.2 p hp2)

theorem createCompactJSON_ws (j : Json) (h : noSpaceJ j = true) :
    wsFree (createCompactJSON j) := by
  unfold createCompactJSON
  rw [marshal_sortJSONKeys]
  exact marshal_ws_bounded (sizeOf j) j (le_refl _) h

/-- C7 (amended): for every call to `CreateSignature` on a working
exchange, the returned header carries the given timestamp and operation
type; if the `expiryWindow` argument is exactly 0 the header's expiry
window is the fixed default 30000; for any other argument it is the
argument itself, unvalidated; consequently the expiry window is strictly
positive whenever the caller's argument is nonnegative.  (The original
claim asserted strict positivity for every argument; a negative argument
is passed through unchanged, see the counterexample.) -/
theorem createSignature_expiry (S : SigScheme) (s : Exchange S)
    (operationType : String) (operationData : Json) (expiryWindow timestamp : Int)
    (h64 : s.privateKey.length = 64) :
    ∃ sig hd, CreateSignature s operationType operationData expiryWindow timestamp =
        .ok (hd, sig) ∧
      hd.timestamp = timestamp ∧ hd.type = operationType ∧
      (expiryWindow = 0 → hd.expiryWindow = 30000) ∧
      (expiryWindow ≠ 0 → hd.expiryWindow = expiryWindow) ∧
      (0 ≤ expiryWindow → 0 < hd.expiryWindow) := by
  refine ⟨S.enc (S.sign s.privateKey (strBytes (createCompactJSON (dataToSign timestamp
      (if expiryWindow = 0 then 30000 else expiryWindow) operationType operationData)))),
    ⟨timestamp, if expiryWindow = 0 then 30000 else expiryWindow, operationType⟩,
    ?_, rfl, rfl, ?_, ?_, ?_⟩
  · simp [CreateSignature, signMessage, h64]
  · intro h
    simp [h]
  · intro h
    simp [h]
  · intro h
    by_cases h0 : expiryWindow = 0
    · simp [h0]
    · simp only [h0, if_false]
      omega

/-- C7 witness: concrete evaluation of the defaulting path. -/
theorem createSignature_expiry_witness :
    plainExchange.privateKey.length = 64 ∧
    (∃ sig hd, CreateSignature plainExchange "create_order" Json.null 0 7 = .ok (hd, sig) ∧
      hd.timestamp = 7 ∧ hd.type = "create_order" ∧
      ((0 : Int) = 0 → hd.expiryWindow = 30000) ∧
      ((0 : Int) ≠ 0 → hd.expiryWindow = 0) ∧
      ((0 : Int) ≤ 0 → 0 < hd.expiryWindow)) :=
  ⟨by simp [plainExchange, plainKey],
   createSignature_expiry plainScheme plainExchange "create_order" Json.null 0 7
     (by simp [plainExchange, plainKey])⟩

/-- C7 counterexample: `CreateSignature` called with `expiryWindow = -1`
returns a header whose expiry window is `-1`, which is not strictly
positive — the claim that the returned expiry window is positive for every
argument fails. -/
theorem createSignature_negative_expiry :
    (∃ sig, CreateSignature plainExchange "test" Json.null (-1) 5 =
      .ok (⟨5, -1, "test"⟩, sig)) ∧ ¬(0 < (-1 : Int)) := by
  constructor
  · exact ⟨plainScheme.enc (plainScheme.sign plainExchange.privateKey
      (strBytes (createCompactJSON (dataToSign 5 (-1) "test" Json.null)))),
      by simp [CreateSignature, signMessage, plainExchange, plainKey]⟩
  · decide

/-- C9: construction does not fail fast on bad key material, contradicting
the specified error taxonomy.  A base58 text decoding to a single byte
(for example `"2"`) makes `NewExchange` panic inside `Public()` (the
`priv[32:]` slice) instead of returning an error; a base58 text decoding
to 33 bytes makes `NewExchange` succeed, deferring the failure to the
first signing call, where `ed25519.Sign` panics on the bad key length. -/
theorem newExchange_bad_key_material :
    NewExchange plainScheme [0] "test_account_id" = .error .panicked ∧
    (∃ ex, NewExchange plainScheme (List.replicate 33 0) "test_account_id" = .ok ex ∧
      signMessage ex "msg" = .error .panicked) := by
  constructor
  · rfl
  · exact ⟨_, rfl, rfl⟩

/-- C1: sign/verify round trip.  For a working exchange (64-byte key
material forming a genuine keypair, public half stored as `NewExchange`
stores it), `CreateSignature` succeeds, and `VerifySignature` applied to
the canonical compact JSON of the envelope rebuilt from the returned
header's fields together with the returned signature yields `true`. -/
theorem signature_round_trip (S : SigScheme) (s : Exchange S)
    (operationType : String) (operationData : Json) (expiryWindow timestamp : Int)
    (h64 : s.privateKey.length = 64) (hgood : S.goodKey s.privateKey)
    (hpub : s.publicKey = s.privateKey.drop 32) :
    ∃ hd sig, CreateSignature s operationType operationData expiryWindow timestamp =
        .ok (hd, sig) ∧
      VerifySignature s
        (createCompactJSON (dataToSign hd.timestamp hd.expiryWindow operationType
          operationData)) sig = true := by
  refine ⟨⟨timestamp, if expiryWindow = 0 then 30000 else expiryWindow, operationType⟩,
    S.enc (S.sign s.privateKey (strBytes (createCompactJSON (dataToSign timestamp
      (if expiryWindow = 0 then 30000 else expiryWindow) operationType operationData)))),
    ?_, ?_⟩
  · simp [CreateSignature, signMessage, h64]
  · simp only [VerifySignature, S.dec_enc, hpub]
    exact S.verify_sign _ _ hgood

/-- C1 witness: concrete evaluation of the round trip hypotheses. -/
theorem signature_round_trip_witness :
    plainExchange.privateKey.length = 64 ∧
    (∃ hd sig, CreateSignature plainExchange "create_order"
        (Json.obj [("symbol", Json.str "BTC"), ("amount", Json.str "0.1")]) 5000 1748970123456 =
        .ok (hd, sig) ∧
      VerifySignature plainExchange
        (createCompactJSON (dataToSign hd.timestamp hd.expiryWindow "create_order"
          (Json.obj [("symbol", Json.str "BTC"), ("amount", Json.str "0.1")]))) sig = true) :=
  ⟨by simp [plainExchange, plainKey],
   signature_round_trip plainScheme plainExchange "create_order"
     (Json.obj [("symbol", Json.str "BTC"), ("amount", Json.str "0.1")]) 5000 1748970123456
     (by simp [plainExchange, plainKey]) trivial rfl⟩

theorem lookup_mapInsert_self {α : Type} :
    ∀ (m : List (String × α)) (k : String) (v : α),
      (mapInsert m k v).lookup k = some v := by
  intro m
  induction m with
  | nil =>
    intro k v
    simp [mapInsert, List.lookup]
  | cons p tl ih =>
    intro k v
    cases p with
    | mk k1 v1 =>
      by_cases h : k1 = k
      · simp [mapInsert, h, List.lookup]
      · have hne : (k == k1) = false := by
          simp
          exact fun he => h he.symm
        simp [mapInsert, h, List.lookup, hne, ih]

theorem lookup_mapInsert_ne {α : Type} {k2 k : String} (h : k2 ≠ k) :
    ∀ (m : List (String × α)) (v : α),
      (mapInsert m k v).lookup k2 = m.lookup k2 := by
  have hb : (k2 == k) = false := by simp [h]
  intro m
  induction m with
  | nil =>
    intro v
    simp [mapInsert, List.lookup, hb]
  | cons p tl ih =>
    intro v
    cases p with
    | mk k1 v1 =>
      by_cases h1 : k1 = k
      · subst h1
        simp [mapInsert, List.lookup, hb]
      · simp only [mapInsert, if_neg h1]
        by_cases h2 : k2 = k1
        · subst h2
          simp [List.lookup]
        · have hne2 : (k2 == k1) = false := by simp [h2]
          simp [List.lookup, hne2, ih]

theorem lookup_flatten_not_mem {α β : Type} (f : α → β) :
    ∀ (fields : List (String × α)) (base : List (String × β)) (k : String),
      k ∉ fields.map Prod.fst →
      (fields.foldl (fun m p => mapInsert m p.1 (f p.2)) base).lookup k =
        base.lookup k := by
  intro fields
  induction fields with
  | nil =>
    intro base k _
    rfl
  | cons p tl ih =>
    intro base k h
    simp only [List.map_cons, List.mem_cons] at h
    push_neg at h
    simp only [List.foldl]
    rw [ih _ _ h.2, lookup_mapInsert_ne h.1]

theorem lookup_flatten_mem {α β : Type} (f : α → β) :
    ∀ (fields : List (String × α)) (base : List (String × β)) (k : String) (v : α),
      (fields.map Prod.fst).Nodup → (k, v) ∈ fields →
      (fields.foldl (fun m p => mapInsert m p.1 (f p.2)) base).lookup k =
        some (f v) := by
  intro fields
  induction fields with
  | nil =>
    intro base k v _ hmem
    simp at hmem
  | cons p tl ih =>
    intro base k v hnd hmem
    simp only [List.map_cons, List.nodup_cons] at hnd
    simp only [List.foldl]
    rcases List.mem_cons.mp hmem with heq | htl
    · have hk : p.1 = k := by rw [← heq]
      have hv : p.2 = v := by rw [← heq]
      subst hk
      have hnotin : p.1 ∉ tl.map Prod.fst := hnd.1
      rw [lookup_flatten_not_mem f tl _ p.1 hnotin, hv, lookup_mapInsert_self]
    · exact ih _ k v hnd.2 htl

/-- C3: `BuildSignedRequest` on a working exchange succeeds for every
operation data that is an object at the top level, and the returned
mapping carries every top-level operation field unmodified together with
the five authentication fields (each auth field visible under its own name
whenever the operation data does not shadow it — shadowing is C8's
subject); a top-level value that is neither an object nor JSON `null`
makes the flattening `json.Unmarshal` step fail.  (`null` unmarshals into
an empty map, so it also succeeds, which is consistent with the claim's
"fails only when it is not an object" direction.) -/
theorem buildSignedRequest_flatten (S : SigScheme) (s : Exchange S)
    (operationType : String) (fields : List (String × Json))
    (expiryWindow timestamp : Int)
    (h64 : s.privateKey.length = 64) (hnd : (fields.map Prod.fst).Nodup) :
    ∃ req, BuildSignedRequest s operationType (.obj fields) expiryWindow timestamp =
        .ok req ∧
      (∀ k v, (k, v) ∈ fields → req.lookup k = some (.js v)) ∧
      ("account" ∉ fields.map Prod.fst →
        req.lookup "account" = some (.js (.str s.accountID))) ∧
      ("agent_wallet" ∉ fields.map Prod.fst →
        req.lookup "agent_wallet" = some (.txt (GetPublicKey s))) ∧
      ("signature" ∉ fields.map Prod.fst →
        ∃ sg, req.lookup "signature" = some (.txt sg)) ∧
      ("timestamp" ∉ fields.map Prod.fst →
        req.lookup "timestamp" = some (.js (.num timestamp))) ∧
      ("expiry_window" ∉ fields.map Prod.fst →
        req.lookup "expiry_window" =
          some (.js (.num (if expiryWindow = 0 then 30000 else expiryWindow)))) ∧
      (∀ d : Json, (∀ gs, d ≠ .obj gs) → d ≠ .null →
        ∃ e, BuildSignedRequest s operationType d expiryWindow timestamp = .error e) := by
  have hsig := createSignature_expiry S s operationType (.obj fields) expiryWindow
    timestamp h64
  rcases hsig with ⟨sig, hd, hok, hts, hty, hew0, hewn, hpos⟩
  refine ⟨fields.foldl (fun m p => mapInsert m p.1 (ReqVal.js p.2))
      [("account", ReqVal.js (.str s.accountID)),
       ("agent_wallet", ReqVal.txt (GetPublicKey s)),
       ("signature", ReqVal.txt sig),
       ("timestamp", ReqVal.js (.num hd.timestamp)),
       ("expiry_window", ReqVal.js (.num hd.expiryWindow))], ?_, ?_, ?_, ?_, ?_, ?_, ?_, ?_⟩
  · rw [BuildSignedRequest, hok]
    rfl
  · intro k v hmem
    exact lookup_flatten_mem ReqVal.js fields _ k v hnd hmem
  · intro h
    rw [lookup_flatten_not_mem ReqVal.js fields _ _ h]
    rfl
  · intro h
    rw [lookup_flatten_not_mem ReqVal.js fields _ _ h]
    rfl
  · intro h
    refine ⟨sig, ?_⟩
    rw [lookup_flatten_not_mem ReqVal.js fields _ _ h]
    rfl
  · intro h
    rw [lookup_flatten_not_mem ReqVal.js fields _ _ h]
    simp [List.lookup, hts]
  · intro h
    rw [lookup_flatten_not_mem ReqVal.js fields _ _ h]
    by_cases h0 : expiryWindow = 0
    · simp [List.lookup, hew0 h0, h0]
    · simp [List.lookup, hewn h0, h0]
  · intro d hobj hnull
    cases d with
    | null => exact absurd rfl hnull
    | obj gs => exact absurd rfl (hobj gs)
    | bool b =>
      exact ⟨.goError "failed to unmarshal operation data",
        by simp [BuildSignedRequest, CreateSignature, signMessage, h64, dataMapOf]⟩
    | num m =>
      exact ⟨.goError "failed to unmarshal operation data",
        by simp [BuildSignedRequest, CreateSignature, signMessage, h64, dataMapOf]⟩
    | str t =>
      exact ⟨.goError "failed to unmarshal operation data",
        by simp [BuildSignedRequest, CreateSignature, signMessage, h64, dataMapOf]⟩
    | arr xs =>
      exact ⟨.goError "failed to unmarshal operation data",
        by simp [BuildSignedRequest, CreateSignature, signMessage, h64, dataMapOf]⟩

/-- C3 witness: the end-to-end scenario of the spec, on the concrete
exchange: operation data with the four order fields, expiry window 5000. -/
theorem buildSignedRequest_flatten_witness :
    plainExchange.privateKey.length = 64 ∧
    ([("symbol", Json.str "BTC"), ("amount", Json.str "0.1"), ("side", Json.str "bid"),
        ("slippage_percent", Json.str "0.5")].map Prod.fst).Nodup ∧
    (∃ req, BuildSignedRequest plainExchange "create_market_order"
        (.obj [("symbol", Json.str "BTC"), ("amount", Json.str "0.1"),
          ("side", Json.str "bid"), ("slippage_percent", Json.str "0.5")]) 5000 1748970123456 =
        .ok req ∧
      (∀ k v, (k, v) ∈ [("symbol", Json.str "BTC"), ("amount", Json.str "0.1"),
          ("side", Json.str "bid"), ("slippage_percent", Json.str "0.5")] →
        req.lookup k = some (.js v)) ∧
      ("account" ∉ ([("symbol", Json.str "BTC"), ("amount", Json.str "0.1"),
          ("side", Json.str "bid"), ("slippage_percent", Json.str "0.5")].map Prod.fst) →
        req.lookup "account" = some (.js (.str plainExchange.accountID))) ∧
      ("agent_wallet" ∉ ([("symbol", Json.str "BTC"), ("amount", Json.str "0.1"),
          ("side", Json.str "bid"), ("slippage_percent", Json.str "0.5")].map Prod.fst) →
        req.lookup "agent_wallet" = some (.txt (GetPublicKey plainExchange))) ∧
      ("signature" ∉ ([("symbol", Json.str "BTC"), ("amount", Json.str "0.1"),
          ("side", Json.str "bid"), ("slippage_percent", Json.str "0.5")].map Prod.fst) →
        ∃ sg, req.lookup "signature" = some (.txt sg)) ∧
      ("timestamp" ∉ ([("symbol", Json.str "BTC"), ("amount", Json.str "0.1"),
          ("side", Json.str "bid"), ("slippage_percent", Json.str "0.5")].map Prod.fst) →
        req.lookup "timestamp" = some (.js (.num 1748970123456))) ∧
      ("expiry_window" ∉ ([("symbol", Json.str "BTC"), ("amount", Json.str "0.1"),
          ("side", Json.str "bid"), ("slippage_percent", Json.str "0.5")].map Prod.fst) →
        req.lookup "expiry_window" =
          some (.js (.num (if (5000 : Int) = 0 then 30000 else 5000)))) ∧
      (∀ d : Json, (∀ gs, d ≠ .obj gs) → d ≠ .null →
        ∃ e, BuildSignedRequest plainExchange "create_market_order" d 5000 1748970123456 =
          .error e)) :=
  ⟨by simp [plainExchange, plainKey], by decide,
   buildSignedRequest_flatten plainScheme plainExchange "create_market_order"
     [("symbol", Json.str "BTC"), ("amount", Json.str "0.1"), ("side", Json.str "bid"),
       ("slippage_percent", Json.str "0.5")] 5000 1748970123456
     (by simp [plainExchange, plainKey]) (by decide)⟩

/-- C8: when the operation data's top-level fields include a reserved
authentication field name, `BuildSignedRequest` succeeds and the
operation-data value silently overwrites the authentication value under
that key — plain `request[k] = v` assignment, no special handling, no
error. -/
theorem buildSignedRequest_collision (S : SigScheme) (s : Exchange S)
    (operationType : String) (fields : List (String × Json))
    (expiryWindow timestamp : Int) (k : String) (v : Json)
    (h64 : s.privateKey.length = 64) (hnd : (fields.map Prod.fst).Nodup)
    (hmem : (k, v) ∈ fields) (_hres : k ∈ reservedAuthKeys) :
    ∃ req, BuildSignedRequest s operationType (.obj fields) expiryWindow timestamp =
        .ok req ∧ req.lookup k = some (.js v) := by
  have hsig := createSignature_expiry S s operationType (.obj fields) expiryWindow
    timestamp h64
  rcases hsig with ⟨sig, hd, hok, _, _, _, _, _⟩
  refine ⟨fields.foldl (fun m p => mapInsert m p.1 (ReqVal.js p.2))
      [("account", ReqVal.js (.str s.accountID)),
       ("agent_wallet", ReqVal.txt (GetPublicKey s)),
       ("signature", ReqVal.txt sig),
       ("timestamp", ReqVal.js (.num hd.timestamp)),
       ("expiry_window", ReqVal.js (.num hd.expiryWindow))], ?_, ?_⟩
  · rw [BuildSignedRequest, hok]
    rfl
  · exact lookup_flatten_mem ReqVal.js fields _ k v hnd hmem

/-- C8 witness: operation data shadowing the reserved `account` field on
the concrete exchange: the operation value wins. -/
theorem buildSignedRequest_collision_witness :
    plainExchange.privateKey.length = 64 ∧
    ([("account", Json.str "EVIL"), ("symbol", Json.str "BTC")].map Prod.fst).Nodup ∧
    ("account", Json.str "EVIL") ∈ [("account", Json.str "EVIL"), ("symbol", Json.str "BTC")] ∧
    "account" ∈ reservedAuthKeys ∧
    (∃ req, BuildSignedRequest plainExchange "create_market_order"
        (.obj [("account", Json.str "EVIL"), ("symbol", Json.str "BTC")]) 5000 99 = .ok req ∧
      req.lookup "account" = some (.js (.str "EVIL"))) :=
  ⟨by simp [plainExchange, plainKey], by decide, List.mem_cons_self _ _, by decide,
   buildSignedRequest_collision plainScheme plainExchange "create_market_order"
     [("account", Json.str "EVIL"), ("symbol", Json.str "BTC")] 5000 99 "account"
     (Json.str "EVIL") (by simp [plainExchange, plainKey]) (by decide)
     (List.mem_cons_self _ _) (by decide)⟩

/-- C2: the canonicalizer contract.  The canonical compact output is the
rendering of a tree whose object keys are strictly ascending at every
nesting depth; array order is preserved and scalars pass through
`sortJSONKeys` unchanged; the output contains no space, tab or newline
anywhere (given that the value's own strings and keys contain no space —
tabs and newlines in string content are escaped, and no whitespace is ever
emitted between tokens); and two values that are structurally equal up to
object key ordering produce byte-identical output. -/
theorem canonicalizer_contract (j j2 : Json) (hwf : wfJ j = true)
    (hwf2 : wfJ j2 = true) (heq : EqJ j j2) :
    sortedKeysB (sortJSONKeys j) = true ∧
    createCompactJSON j = marshal (sortJSONKeys j) ∧
    (∀ xs, sortJSONKeys (Json.arr xs) = Json.arr (xs.map sortJSONKeys)) ∧
    (sortJSONKeys Json.null = Json.null ∧
      (∀ b, sortJSONKeys (Json.bool b) = Json.bool b) ∧
      (∀ n, sortJSONKeys (Json.num n) = Json.num n) ∧
      (∀ t, sortJSONKeys (Json.str t) = Json.str t)) ∧
    (noSpaceJ j = true →
      ∀ c ∈ (createCompactJSON j).data, c ≠ ' ' ∧ c ≠ '\t' ∧ c ≠ '\n') ∧
    createCompactJSON j = createCompactJSON j2 := by
  refine ⟨sortedKeys_sortJSONKeys j hwf, rfl, ?_, ⟨?_, ?_, ?_, ?_⟩, ?_, ?_⟩
  · intro xs
    simp [sortJSONKeys, sortL_eq_map]
  · simp [sortJSONKeys]
  · intro b
    simp [sortJSONKeys]
  · intro n
    simp [sortJSONKeys]
  · intro t
    simp [sortJSONKeys]
  · intro h
    exact createCompactJSON_ws j h
  · exact createCompactJSON_eq_of_eqJ heq hwf hwf2

/-- C2 witness: two concrete values, equal up to key ordering at two
nesting depths, satisfy the contract. -/
theorem canonicalizer_contract_witness :
    wfJ (Json.obj [("b", Json.num 1),
      ("a", Json.obj [("y", Json.bool true), ("x", Json.str "u")])]) = true ∧
    wfJ (Json.obj [("a", Json.obj [("x", Json.str "u"), ("y", Json.bool true)]),
      ("b", Json.num 1)]) = true ∧
    (sortedKeysB (sortJSONKeys (Json.obj [("b", Json.num 1),
        ("a", Json.obj [("y", Json.bool true), ("x", Json.str "u")])])) = true ∧
      createCompactJSON (Json.obj [("b", Json.num 1),
        ("a", Json.obj [("y", Json.bool true), ("x", Json.str "u")])]) =
        marshal (sortJSONKeys (Json.obj [("b", Json.num 1),
          ("a", Json.obj [("y", Json.bool true), ("x", Json.str "u")])])) ∧
      (∀ xs, sortJSONKeys (Json.arr xs) = Json.arr (xs.map sortJSONKeys)) ∧
      (sortJSONKeys Json.null = Json.null ∧
        (∀ b, sortJSONKeys (Json.bool b) = Json.bool b) ∧
        (∀ n, sortJSONKeys (Json.num n) = Json.num n) ∧
        (∀ t, sortJSONKeys (Json.str t) = Json.str t)) ∧
      (noSpaceJ (Json.obj [("b", Json.num 1),
          ("a", Json.obj [("y", Json.bool true), ("x", Json.str "u")])]) = true →
        ∀ c ∈ (createCompactJSON (Json.obj [("b", Json.num 1),
          ("a", Json.obj [("y", Json.bool true), ("x", Json.str "u")])])).data,
          c ≠ ' ' ∧ c ≠ '\t' ∧ c ≠ '\n') ∧
      createCompactJSON (Json.obj [("b", Json.num 1),
        ("a", Json.obj [("y", Json.bool true), ("x", Json.str "u")])]) =
        createCompactJSON (Json.obj [("a", Json.obj [("x", Json.str "u"),
          ("y", Json.bool true)]), ("b", Json.num 1)])) := by
  have h1 : wfJ (Json.obj [("b", Json.num 1),
      ("a", Json.obj [("y", Json.bool true), ("x", Json.str "u")])]) = true := by
    simp [wfJ, wfF, wfL, nodupKeysB]
  have h2 : wfJ (Json.obj [("a", Json.obj [("x", Json.str "u"), ("y", Json.bool true)]),
      ("b", Json.num 1)]) = true := by
    simp [wfJ, wfF, wfL, nodupKeysB]
  have heq : EqJ (Json.obj [("b", Json.num 1),
      ("a", Json.obj [("y", Json.bool true), ("x", Json.str "u")])])
      (Json.obj [("a", Json.obj [("x", Json.str "u"), ("y", Json.bool true)]),
        ("b", Json.num 1)]) := by
    apply EqJ.obj
    have hinner : EqJ (Json.obj [("y", Json.bool true), ("x", Json.str "u")])
        (Json.obj [("x", Json.str "u"), ("y", Json.bool true)]) := by
      apply EqJ.obj
      exact FieldsRel.cons "y" (Json.bool true) (Json.bool true)
        [("x", Json.str "u")] [("x", Json.str "u")] [] (EqJ.bool true)
        (FieldsRel.cons "x" (Json.str "u") (Json.str "u") [] [] [] (EqJ.str "u")
          FieldsRel.nil)
    exact FieldsRel.cons "b" (Json.num 1) (Json.num 1)
      [("a", Json.obj [("y", Json.bool true), ("x", Json.str "u")])]
      [("a", Json.obj [("x", Json.str "u"), ("y", Json.bool true)])] []
      (EqJ.num 1)
      (FieldsRel.cons "a" (Json.obj [("y", Json.bool true), ("x", Json.str "u")])
        (Json.obj [("x", Json.str "u"), ("y", Json.bool true)]) [] [] []
        hinner FieldsRel.nil)
  exact ⟨h1, h2, canonicalizer_contract _ _ h1 h2 heq⟩

theorem lookup_filter_self {α : Type} (k : String) :
    ∀ l : List (String × α), (l.filter (fun q => !(q.1 == k))).lookup k = none := by
  intro l
  induction l with
  | nil => rfl
  | cons q tl ih =>
    by_cases h : q.1 = k
    · have hb : (q.1 == k) = true := by simp [h]
      simp [List.filter, hb, ih]
    · have hb : (q.1 == k) = false := by simp [h]
      have hb2 : (k == q.1) = false := by simp [Ne.symm h]
      simp [List.filter, hb, List.lookup, hb2, ih]

/-- C4: subscription refcounting.  Starting from any client state with no
group registered for the stream key, two subscribe calls whose payloads
normalize to the same key issue exactly one upstream subscribe command
(on the first call, the 0 to 1 transition); closing one of the two
subscriptions issues no upstream command and leaves the group registered;
closing the second issues exactly one upstream unsubscribe command and
removes the group from the registry. -/
theorem subscription_refcounting (st : WsState) (p p2 : RemotePayload) (c1 c2 : Nat)
    (hkey : p2.streamKey = p.streamKey)
    (habsent : st.subscribers.lookup p.streamKey = none) :
    ∃ st1 st2 st3 id1 id2 g2 g3,
      subscribeW st p (some c1) = .ok (st1, [WsCmd.subscribe p], id1) ∧
      subscribeW st1 p2 (some c2) = .ok (st2, [], id2) ∧
      id1 ≠ id2 ∧
      st2.subscribers.lookup p.streamKey = some g2 ∧
      unsubscribeW st2 p.streamKey id1 = (st3, []) ∧
      st3.subscribers.lookup p.streamKey = some g3 ∧
      unsubscribeW st3 p.streamKey id2 =
        (⟨st3.connOpen, st3.doneClosed, st3.closedOnce, st3.reconnectWait,
          st3.subscribers.filter (fun q => !(q.1 == p.streamKey)), st3.nextSubID⟩,
         [WsCmd.unsubscribe p]) ∧
      (st3.subscribers.filter (fun q => !(q.1 == p.streamKey))).lookup p.streamKey =
        none := by
  cases st with
  | mk co dc cl rcw subs n =>
    simp only [] at habsent
    have hne : ((n + 1 : Int) == n + 2) = false := by
      simp only [beq_eq_false_iff_ne]
      omega
    have hne2 : ((n + 2 : Int) == n + 1) = false := by
      simp only [beq_eq_false_iff_ne]
      omega
    have hself : ((n + 1 : Int) == n + 1) = true := by simp
    have hself2 : ((n + 2 : Int) == n + 2) = true := by simp
    refine ⟨⟨co, dc, cl, rcw,
        mapInsert (mapInsert subs p.streamKey ⟨[], 0, p⟩) p.streamKey
          ⟨[(n + 1, c1)], 1, p⟩, n + 1⟩,
      ⟨co, dc, cl, rcw,
        mapInsert (mapInsert (mapInsert subs p.streamKey ⟨[], 0, p⟩) p.streamKey
          ⟨[(n + 1, c1)], 1, p⟩) p.streamKey ⟨[(n + 1, c1), (n + 2, c2)], 2, p⟩, n + 2⟩,
      ⟨co, dc, cl, rcw,
        mapInsert (mapInsert (mapInsert (mapInsert subs p.streamKey ⟨[], 0, p⟩)
          p.streamKey ⟨[(n + 1, c1)], 1, p⟩) p.streamKey
          ⟨[(n + 1, c1), (n + 2, c2)], 2, p⟩) p.streamKey ⟨[(n + 2, c2)], 1, p⟩, n + 2⟩,
      n + 1, n + 2, ⟨[(n + 1, c1), (n + 2, c2)], 2, p⟩, ⟨[(n + 2, c2)], 1, p⟩,
      ?_, ?_, ?_, ?_, ?_, ?_, ?_, ?_⟩
    · simp [subscribeW, habsent, uniqSubscribe]
    · rw [subscribeW]
      simp only [hkey]
      rw [lookup_mapInsert_self]
      simp [uniqSubscribe, hne2]
      rw [show (n : Int) + 1 + 1 = n + 2 from by omega]
      exact ⟨rfl, rfl⟩
    · omega
    · exact lookup_mapInsert_self _ _ _
    · rw [unsubscribeW]
      rw [lookup_mapInsert_self]
      simp [uniqUnsubscribe, hself, hne2, List.filter]
    · exact lookup_mapInsert_self _ _ _
    · rw [unsubscribeW]
      rw [lookup_mapInsert_self]
      simp [uniqUnsubscribe, hself2, List.filter]
    · exact lookup_filter_self _ _

/-- C4 witness: the scenario on a fresh client with two order-book
subscriptions for the same coin. -/
theorem subscription_refcounting_witness :
    (RemotePayload.orderBook ChannelOrderBook "SOL" 1).streamKey =
      (RemotePayload.orderBook ChannelOrderBook "SOL" 1).streamKey ∧
    NewWebsocketClient.subscribers.lookup
      (RemotePayload.orderBook ChannelOrderBook "SOL" 1).streamKey = none ∧
    (∃ st1 st2 st3 id1 id2 g2 g3,
      subscribeW NewWebsocketClient (RemotePayload.orderBook ChannelOrderBook "SOL" 1)
          (some 7) = .ok (st1, [WsCmd.subscribe
            (RemotePayload.orderBook ChannelOrderBook "SOL" 1)], id1) ∧
      subscribeW st1 (RemotePayload.orderBook ChannelOrderBook "SOL" 1) (some 8) =
        .ok (st2, [], id2) ∧
      id1 ≠ id2 ∧
      st2.subscribers.lookup
        (RemotePayload.orderBook ChannelOrderBook "SOL" 1).streamKey = some g2 ∧
      unsubscribeW st2 (RemotePayload.orderBook ChannelOrderBook "SOL" 1).streamKey id1 =
        (st3, []) ∧
      st3.subscribers.lookup
        (RemotePayload.orderBook ChannelOrderBook "SOL" 1).streamKey = some g3 ∧
      unsubscribeW st3 (RemotePayload.orderBook ChannelOrderBook "SOL" 1).streamKey id2 =
        (⟨st3.connOpen, st3.doneClosed, st3.closedOnce, st3.reconnectWait,
          st3.subscribers.filter (fun q => !(q.1 ==
            (RemotePayload.orderBook ChannelOrderBook "SOL" 1).streamKey)),
          st3.nextSubID⟩,
         [WsCmd.unsubscribe (RemotePayload.orderBook ChannelOrderBook "SOL" 1)]) ∧
      (st3.subscribers.filter (fun q => !(q.1 ==
          (RemotePayload.orderBook ChannelOrderBook "SOL" 1).streamKey))).lookup
        (RemotePayload.orderBook ChannelOrderBook "SOL" 1).streamKey = none) :=
  ⟨rfl, rfl,
   subscription_refcounting NewWebsocketClient
     (RemotePayload.orderBook ChannelOrderBook "SOL" 1)
     (RemotePayload.orderBook ChannelOrderBook "SOL" 1) 7 8 rfl rfl⟩

/-- C5: the first `Close` on a client holding a live transport tears the
transport down and signals shutdown, and later calls are no-ops — but,
contradicting the claim and the specification, the subscriber groups are
not cleared and no unsubscribe hook runs: `close` returns right after
`conn.Close()`, before the loop that would clear them. -/
theorem close_leaves_groups_when_connected :
    (CloseW ⟨true, false, false, 1,
        [(keyOrderBook "SOL", ⟨[(1, 0)], 1, .orderBook ChannelOrderBook "SOL" 1⟩)], 1⟩).1 =
      ⟨false, true, true, 1,
        [(keyOrderBook "SOL", ⟨[(1, 0)], 1, .orderBook ChannelOrderBook "SOL" 1⟩)], 1⟩ ∧
    (CloseW ⟨true, false, false, 1,
        [(keyOrderBook "SOL", ⟨[(1, 0)], 1, .orderBook ChannelOrderBook "SOL" 1⟩)], 1⟩).2 =
      [] ∧
    (CloseW ⟨false, true, true, 1,
        [(keyOrderBook "SOL", ⟨[(1, 0)], 1, .orderBook ChannelOrderBook "SOL" 1⟩)], 1⟩) =
      (⟨false, true, true, 1,
        [(keyOrderBook "SOL", ⟨[(1, 0)], 1, .orderBook ChannelOrderBook "SOL" 1⟩)], 1⟩,
       []) ∧
    [(keyOrderBook "SOL",
      (⟨[(1, 0)], 1, .orderBook ChannelOrderBook "SOL" 1⟩ : Group))] ≠ [] := by
  refine ⟨by simp [CloseW, closeInner], by simp [CloseW, closeInner],
    by simp [CloseW], by simp⟩

/-- C6 helper: the backoff update never leaves the interval [1, 60]. -/
theorem backoffStep_bounds (w : Nat) (h1 : 1 ≤ w) :
    1 ≤ backoffStep w ∧ backoffStep w ≤ 60 := by
  unfold backoffStep
  split <;> omega

/-- C6 helper: folding the cap through one doubling. -/
theorem backoffStep_pow (w i : Nat) :
    min (backoffStep w * 2 ^ i) 60 = min (w * 2 ^ (i + 1)) 60 := by
  have hpow : 1 ≤ 2 ^ i := Nat.one_le_two_pow
  unfold backoffStep
  split
  · have h2 : w * 2 ^ (i + 1) = w * 2 * 2 ^ i := by ring
    rw [h2]
    have h60 : 60 * 2 ^ i ≥ 60 := Nat.le_mul_of_pos_right 60 (by omega)
    have hw : w * 2 * 2 ^ i ≥ w * 2 := Nat.le_mul_of_pos_right (w * 2) (by omega)
    omega
  · have h2 : w * 2 ^ (i + 1) = w * 2 * 2 ^ i := by ring
    rw [h2]

/-- C6 (amended): reconnect backoff.  On a client that has not been shut
down, with its current wait in [1, 60] (as it always is: it starts at 1 at
construction and the update preserves the interval), a loss episode with
`n` failed attempts before success sleeps exactly `n` times, the i-th wait
being `min (w0 * 2 ^ i) 60` where `w0` is the wait *carried over from the
client's past* — starting at 1 second only at construction, doubling after
each failed attempt, capped at 60 seconds, and never reset between
episodes; the episode ends with the transport re-established, and a client
whose shutdown signal fired makes no attempt at all.  (The original claim
said the wait restarts at 1 second for each loss episode; it does not,
see the counterexample.) -/
theorem reconnect_backoff (st : WsState) (n : Nat)
    (hdone : st.doneClosed = false) (h1 : 1 ≤ st.reconnectWait)
    (h60 : st.reconnectWait ≤ 60) :
    (reconnectW st n).2.length = n ∧
    (∀ i, i < n → (reconnectW st n).2.getD i 0 = min (st.reconnectWait * 2 ^ i) 60) ∧
    (∀ w ∈ (reconnectW st n).2, 1 ≤ w ∧ w ≤ 60) ∧
    (reconnectW st n).1.connOpen = true ∧
    (reconnectW st n).1.reconnectWait = min (st.reconnectWait * 2 ^ n) 60 ∧
    NewWebsocketClient.reconnectWait = 1 ∧
    (∀ st2 : WsState, st2.doneClosed = true → ∀ m, reconnectW st2 m = (st2, [])) := by
  induction n generalizing st with
  | zero =>
    refine ⟨?_, ?_, ?_, ?_, ?_, rfl, ?_⟩
    · simp [reconnectW, hdone]
    · intro i hi
      omega
    · intro w hw
      simp [reconnectW, hdone] at hw
    · simp [reconnectW, hdone]
    · simp [reconnectW, hdone]
      omega
    · intro st2 h m
      cases m <;> simp [reconnectW, h]
  | succ n ih =>
    obtain ⟨co, dc, cl, rcw, subs, ns⟩ := st
    have hd2 : dc = false := hdone
    subst hd2
    have hw1 : (1 : Nat) ≤ rcw := h1
    have hw60 : rcw ≤ 60 := h60
    have hb := backoffStep_bounds rcw hw1
    have ih2 := ih ⟨co, false, cl, backoffStep rcw, subs, ns⟩ rfl hb.1 hb.2
    rcases ih2 with ⟨hlen, hget, hmem, hconn, hwait, _, hstop⟩
    have hunf : reconnectW ⟨co, false, cl, rcw, subs, ns⟩ (n + 1) =
        ((reconnectW ⟨co, false, cl, backoffStep rcw, subs, ns⟩ n).1,
         rcw :: (reconnectW ⟨co, false, cl, backoffStep rcw, subs, ns⟩ n).2) := by
      simp [reconnectW]
    refine ⟨?_, ?_, ?_, ?_, ?_, rfl, hstop⟩
    · rw [hunf]
      simp [hlen]
    · intro i hi
      rw [hunf]
      cases i with
      | zero =>
        simp only [List.getD_cons_zero, pow_zero, mul_one]
        omega
      | succ i =>
        simp only [List.getD_cons_succ]
        rw [hget i (by omega)]
        exact backoffStep_pow rcw i
    · intro w hw
      rw [hunf] at hw
      rcases List.mem_cons.mp hw with rfl | h2
      · exact ⟨hw1, hw60⟩
      · exact hmem w h2
    · rw [hunf]
      exact hconn
    · rw [hunf]
      exact hwait.trans (backoffStep_pow rcw n)

/-- C6 witness: applying the amended backoff statement to a fresh client
with two failed attempts: waits 1 then 2, final wait 4. -/
theorem reconnect_backoff_witness :
    NewWebsocketClient.doneClosed = false ∧ 1 ≤ NewWebsocketClient.reconnectWait ∧
    NewWebsocketClient.reconnectWait ≤ 60 ∧
    ((reconnectW NewWebsocketClient 2).2.length = 2 ∧
      (∀ i, i < 2 → (reconnectW NewWebsocketClient 2).2.getD i 0 =
        min (NewWebsocketClient.reconnectWait * 2 ^ i) 60) ∧
      (∀ w ∈ (reconnectW NewWebsocketClient 2).2, 1 ≤ w ∧ w ≤ 60) ∧
      (reconnectW NewWebsocketClient 2).1.connOpen = true ∧
      (reconnectW NewWebsocketClient 2).1.reconnectWait =
        min (NewWebsocketClient.reconnectWait * 2 ^ 2) 60 ∧
      NewWebsocketClient.reconnectWait = 1 ∧
      (∀ st2 : WsState, st2.doneClosed = true → ∀ m, reconnectW st2 m = (st2, []))) :=
  ⟨rfl, by decide, by decide,
   reconnect_backoff NewWebsocketClient 2 rfl (by decide) (by decide)⟩

/-- C6 counterexample: the wait does not restart at 1 second on a new loss
episode.  A fresh client's first episode with one failed attempt sleeps
1 second; the next episode's first sleep is then 2 seconds, because
`reconnectWait` is never reset after a successful connect. -/
theorem reconnect_backoff_not_reset :
    (reconnectW NewWebsocketClient 1).2 = [1] ∧
    (reconnectW (reconnectW NewWebsocketClient 1).1 1).2 = [2] ∧
    (2 : Nat) ≠ 1 := by
  refine ⟨rfl, rfl, by decide⟩

/-- C10: candle subscription validates its interval before any side
effect.  For an interval outside the fixed list the call returns the
`invalid interval` error — by construction of the model the error return
carries no state change and no upstream command, mirroring the Go early
return before any registration — and for an interval in the list the call
is exactly the generic subscribe on the candle payload. -/
theorem candle_interval_validation (st : WsState) (symbol interval : String)
    (callback : Option Nat) :
    (validIntervals.contains interval = false →
      CandleW st symbol interval callback = .error ("invalid interval: " ++ interval)) ∧
    (validIntervals.contains interval = true →
      CandleW st symbol interval callback =
        subscribeW st (.candle ChannelCandle symbol interval) callback) := by
  constructor
  · intro h
    have hm : interval ∉ validIntervals := by simpa using h
    simp [CandleW, hm]
  · intro h
    have hm : interval ∈ validIntervals := by simpa using h
    simp [CandleW, hm]

/-- C10 witness: `"2m"` is rejected, `"1m"` is accepted, on a fresh
client. -/
theorem candle_interval_validation_witness :
    (validIntervals.contains "2m" = false ∧
      CandleW NewWebsocketClient "SOL" "2m" (some 0) =
        .error ("invalid interval: " ++ "2m")) ∧
    (validIntervals.contains "1m" = true ∧
      CandleW NewWebsocketClient "SOL" "1m" (some 0) =
        subscribeW NewWebsocketClient (.candle ChannelCandle "SOL" "1m") (some 0)) :=
  ⟨⟨by decide, (candle_interval_validation NewWebsocketClient "SOL" "2m" (some 0)).1
      (by decide)⟩,
   ⟨by decide, (candle_interval_validation NewWebsocketClient "SOL" "1m" (some 0)).2
      (by decide)⟩⟩

end Pacifica
